import Mathlib

/-!
Verification of the mood-chain transition engine and content-based
recommendation scorer of the Krol-X-NiceMusicLibrary backend.

The Python services (`app/services/recommendation.py`,
`app/services/mood_chain.py`) are shallowly embedded: floats become exact
rationals, UUIDs become naturals, database rows become lists, and each
service method becomes a pure function over an explicit chain state.
-/

namespace MusicLib

/-- Song feature record, embedding the fields of `app.models.song.Song` that the
recommendation and mood-chain services read.  `energy` and `valence` are floats
in the source, modelled as exact rationals; `bpm` is an optional integer. -/
structure Song where
  id : Nat
  ownerId : Nat
  title : String
  artist : Option String
  album : Option String
  genre : Option String
  bpm : Option Int
  energy : Option ℚ
  valence : Option ℚ
  durationSeconds : Nat
  coverArtPath : Option String
  playCount : Nat
  deriving Repr, DecidableEq

/-- Python truthiness of an optional string (used by `if source.genre and
candidate.genre`): `None` and the empty string are falsy. -/
def strTruthy : Option String → Bool
  | none => false
  | some s => decide (s ≠ "")

/-- Python truthiness of an optional integer (used by `if source.bpm and
candidate.bpm`): `None` and `0` are falsy. -/
def intTruthy : Option Int → Bool
  | none => false
  | some n => decide (n ≠ 0)

/-- One gated factor of `_calculate_similarity`: its contribution to the running
score, its contribution to the running weight sum, and the reasons it appends. -/
structure Factor where
  score : ℚ
  weight : ℚ
  reasons : List String
  deriving Repr, DecidableEq

/-- Genre factor of `_calculate_similarity` (recommendation.py lines 77-82):
participates only when both genres are truthy; case-insensitive match gives the
full 0.3 weight and the reason "same genre". -/
def genre_factor (source candidate : Song) : Factor :=
  if strTruthy source.genre && strTruthy candidate.genre then
    if (source.genre.getD "").toLower = (candidate.genre.getD "").toLower then
      ⟨3/10, 3/10, ["same genre"]⟩
    else ⟨0, 3/10, []⟩
  else ⟨0, 0, []⟩

/-- BPM factor (recommendation.py lines 84-95): participates when both bpm
values are truthy; tiers at absolute difference 10/20/30 give 0.2/0.15/0.1. -/
def bpm_factor (source candidate : Song) : Factor :=
  if intTruthy source.bpm && intTruthy candidate.bpm then
    if |source.bpm.getD 0 - candidate.bpm.getD 0| ≤ 10 then ⟨1/5, 1/5, ["similar BPM"]⟩
    else if |source.bpm.getD 0 - candidate.bpm.getD 0| ≤ 20 then ⟨3/20, 1/5, ["close BPM"]⟩
    else if |source.bpm.getD 0 - candidate.bpm.getD 0| ≤ 30 then ⟨1/10, 1/5, []⟩
    else ⟨0, 1/5, []⟩
  else ⟨0, 0, []⟩

/-- Energy factor (recommendation.py lines 97-107): participates when both
energies are present; tiers at difference 0.1/0.2/0.3 give 0.2/0.15/0.1. -/
def energy_factor (source candidate : Song) : Factor :=
  match source.energy, candidate.energy with
  | some a, some b =>
    if |a - b| ≤ 1/10 then ⟨1/5, 1/5, ["similar energy"]⟩
    else if |a - b| ≤ 1/5 then ⟨3/20, 1/5, []⟩
    else if |a - b| ≤ 3/10 then ⟨1/10, 1/5, []⟩
    else ⟨0, 1/5, []⟩
  | _, _ => ⟨0, 0, []⟩

/-- Valence factor (recommendation.py lines 109-119): participates when both
valences are present; tiers at difference 0.1/0.2/0.3 give 0.15/0.1/0.05. -/
def valence_factor (source candidate : Song) : Factor :=
  match source.valence, candidate.valence with
  | some a, some b =>
    if |a - b| ≤ 1/10 then ⟨3/20, 3/20, ["similar mood"]⟩
    else if |a - b| ≤ 1/5 then ⟨1/10, 3/20, []⟩
    else if |a - b| ≤ 3/10 then ⟨1/20, 3/20, []⟩
    else ⟨0, 3/20, []⟩
  | _, _ => ⟨0, 0, []⟩

/-- The artist-match condition of `_calculate_similarity` (lines 123-127): both
artists truthy and equal case-insensitively. -/
def artist_match (source candidate : Song) : Bool :=
  strTruthy source.artist && strTruthy candidate.artist &&
    decide ((source.artist.getD "").toLower = (candidate.artist.getD "").toLower)

/-- Artist factor (recommendation.py lines 121-129): its 0.15 weight always
enters the weight sum; a match adds the full weight and "same artist". -/
def artist_factor (source candidate : Song) : Factor :=
  if artist_match source candidate then ⟨3/20, 3/20, ["same artist"]⟩
  else ⟨0, 3/20, []⟩

/-- Accumulated score of `_calculate_similarity` before normalization. -/
def sim_score (source candidate : Song) : ℚ :=
  (genre_factor source candidate).score + (bpm_factor source candidate).score +
    (energy_factor source candidate).score + (valence_factor source candidate).score +
    (artist_factor source candidate).score

/-- Accumulated weight sum of `_calculate_similarity`. -/
def sim_weights (source candidate : Song) : ℚ :=
  (genre_factor source candidate).weight + (bpm_factor source candidate).weight +
    (energy_factor source candidate).weight + (valence_factor source candidate).weight +
    (artist_factor source candidate).weight

/-- Reasons accumulated by `_calculate_similarity`, in evaluation order. -/
def sim_reasons (source candidate : Song) : List String :=
  (genre_factor source candidate).reasons ++ (bpm_factor source candidate).reasons ++
    (energy_factor source candidate).reasons ++ (valence_factor source candidate).reasons ++
    (artist_factor source candidate).reasons

/-- Embedding of `RecommendationService._calculate_similarity`
(recommendation.py lines 52-138): normalize by the weight sum when it is
positive, otherwise fall back to 0.3, then clamp into [0, 1]. -/
def calculate_similarity (source candidate : Song) : ℚ × List String :=
  let score :=
    if 0 < sim_weights source candidate then
      sim_score source candidate / sim_weights source candidate
    else 3/10
  (max 0 (min 1 score), sim_reasons source candidate)

theorem genre_factor_comm (s c : Song) : genre_factor s c = genre_factor c s := by
  unfold genre_factor
  rw [Bool.and_comm]
  by_cases h : (strTruthy c.genre && strTruthy s.genre) = true
  · rw [if_pos h, if_pos h]
    by_cases h2 : (s.genre.getD "").toLower = (c.genre.getD "").toLower
    · rw [if_pos h2, if_pos h2.symm]
    · rw [if_neg h2, if_neg (fun hh => h2 hh.symm)]
  · rw [if_neg h, if_neg h]

theorem bpm_factor_comm (s c : Song) : bpm_factor s c = bpm_factor c s := by
  unfold bpm_factor
  rw [Bool.and_comm, abs_sub_comm]

theorem energy_factor_comm (s c : Song) : energy_factor s c = energy_factor c s := by
  unfold energy_factor
  rcases s.energy with _ | a <;> rcases c.energy with _ | b <;> simp [abs_sub_comm]

theorem valence_factor_comm (s c : Song) : valence_factor s c = valence_factor c s := by
  unfold valence_factor
  rcases s.valence with _ | a <;> rcases c.valence with _ | b <;> simp [abs_sub_comm]

theorem artist_match_comm (s c : Song) : artist_match s c = artist_match c s := by
  unfold artist_match
  rcases h1 : strTruthy s.artist <;> rcases h2 : strTruthy c.artist <;>
    simp [h1, h2, eq_comm]

theorem artist_factor_comm (s c : Song) : artist_factor s c = artist_factor c s := by
  unfold artist_factor
  rw [artist_match_comm]

/-- Tier function the code implements for the valence factor: contributions
0.15 / 0.10 / 0.05 of the score for absolute differences bounded by
0.1 / 0.2 / 0.3, and 0 beyond 0.3. -/
def valence_tier (d : ℚ) : ℚ :=
  if d ≤ 1/10 then 3/20 else if d ≤ 1/5 then 1/10 else if d ≤ 3/10 then 1/20 else 0

/-- A song with only a valence attribute, used to exercise the valence tiers. -/
def songValA : Song :=
  ⟨1, 1, "a", none, none, none, none, none, some 0, 100, none, 0⟩

/-- A song whose valence differs from `songValA` by 0.15 (the middle tier). -/
def songValB : Song :=
  ⟨2, 1, "b", none, none, none, none, none, some (3/20), 100, none, 0⟩

theorem similar_mood_notin_genre (s c : Song) :
    "similar mood" ∉ (genre_factor s c).reasons := by
  unfold genre_factor
  split_ifs <;> simp

theorem similar_mood_notin_bpm (s c : Song) :
    "similar mood" ∉ (bpm_factor s c).reasons := by
  unfold bpm_factor
  split_ifs <;> simp

theorem similar_mood_notin_energy (s c : Song) :
    "similar mood" ∉ (energy_factor s c).reasons := by
  unfold energy_factor
  rcases s.energy with _ | a <;> rcases c.energy with _ | b <;> try simp
  split_ifs <;> simp

theorem similar_mood_notin_artist (s c : Song) :
    "similar mood" ∉ (artist_factor s c).reasons := by
  unfold artist_factor
  split_ifs <;> simp

/-- Claim C5, counterexample: with valence difference 0.15 (middle tier) and no
other attributes, the code adds 0.1 to the score, not the 0.1125 the claim
predicts, and the final score is 1/3, not the 3/8 the claim would give. -/
theorem valence_middle_tier_counterexample :
    (valence_factor songValA songValB).score = 1/10 ∧ ((1:ℚ)/10 ≠ 9/80) ∧
    (calculate_similarity songValA songValB).1 = 1/3 ∧ ((1:ℚ)/3 ≠ 3/8) := by
  have habs : |(0:ℚ) - 3/20| = 3/20 := by
    rw [zero_sub, abs_neg]
    exact abs_of_nonneg (by norm_num)
  have hval : valence_factor songValA songValB = ⟨1/10, 3/20, []⟩ := by
    unfold valence_factor songValA songValB
    simp only [habs]
    norm_num
  refine ⟨by rw [hval], by norm_num, ?_, by norm_num⟩
  unfold calculate_similarity sim_score sim_weights
  rw [hval]
  unfold genre_factor bpm_factor energy_factor artist_factor artist_match strTruthy
    intTruthy songValA songValB
  norm_num [min_def, max_def]

/-- Claim C5, amended: whenever both songs have valence, the valence factor
contributes 0.15 / 0.10 / 0.05 to the score for absolute valence difference
bounded by 0.1 / 0.2 / 0.3 respectively (0 beyond 0.3), always contributes its
0.15 weight, and a difference of at most 0.1 is exactly when "similar mood" is
among the returned reasons. -/
theorem valence_factor_amended_spec (A B : Song) (va vb : ℚ)
    (ha : A.valence = some va) (hb : B.valence = some vb) :
    (valence_factor A B).score = valence_tier |va - vb| ∧
    (valence_factor A B).weight = 3/20 ∧
    ("similar mood" ∈ (calculate_similarity A B).2 ↔ |va - vb| ≤ 1/10) := by
  have hv : valence_factor A B =
      if |va - vb| ≤ 1/10 then ⟨3/20, 3/20, ["similar mood"]⟩
      else if |va - vb| ≤ 1/5 then ⟨1/10, 3/20, []⟩
      else if |va - vb| ≤ 3/10 then ⟨1/20, 3/20, []⟩
      else ⟨0, 3/20, []⟩ := by
    unfold valence_factor
    rw [ha, hb]
  refine ⟨?_, ?_, ?_⟩
  · rw [hv]
    unfold valence_tier
    split_ifs <;> rfl
  · rw [hv]
    split_ifs <;> rfl
  · have hmem : "similar mood" ∈ (calculate_similarity A B).2 ↔
        "similar mood" ∈ (valence_factor A B).reasons := by
      unfold calculate_similarity sim_reasons
      simp only [List.mem_append]
      have h1 := similar_mood_notin_genre A B
      have h2 := similar_mood_notin_bpm A B
      have h3 := similar_mood_notin_energy A B
      have h4 := similar_mood_notin_artist A B
      tauto
    rw [hmem, hv]
    split_ifs with h1 h2 h3
    · exact iff_of_true (List.mem_singleton_self _) h1
    · exact iff_of_false (List.not_mem_nil _) h1
    · exact iff_of_false (List.not_mem_nil _) h1
    · exact iff_of_false (List.not_mem_nil _) h1

/-- Closed witness for `valence_factor_amended_spec` at concrete songs. -/
theorem valence_factor_amended_spec_witness :
    (valence_factor songValA songValB).score = valence_tier |0 - 3/20| ∧
    (valence_factor songValA songValB).weight = 3/20 ∧
    ("similar mood" ∈ (calculate_similarity songValA songValB).2 ↔
      |(0:ℚ) - 3/20| ≤ 1/10) :=
  valence_factor_amended_spec songValA songValB 0 (3/20) rfl rfl

theorem genre_factor_weight_nonneg (s c : Song) : 0 ≤ (genre_factor s c).weight := by
  unfold genre_factor
  split_ifs <;> norm_num

theorem bpm_factor_weight_nonneg (s c : Song) : 0 ≤ (bpm_factor s c).weight := by
  unfold bpm_factor
  split_ifs <;> norm_num

theorem energy_factor_weight_nonneg (s c : Song) : 0 ≤ (energy_factor s c).weight := by
  unfold energy_factor
  rcases s.energy with _ | a <;> rcases c.energy with _ | b <;> try norm_num
  split_ifs <;> norm_num

theorem valence_factor_weight_nonneg (s c : Song) : 0 ≤ (valence_factor s c).weight := by
  unfold valence_factor
  rcases s.valence with _ | a <;> rcases c.valence with _ | b <;> try norm_num
  split_ifs <;> norm_num

theorem artist_factor_weight (s c : Song) : (artist_factor s c).weight = 3/20 := by
  unfold artist_factor
  split_ifs <;> rfl

/-- Claim C6: the weight sum is always at least 0.15 (the unconditional artist
factor), so the 0.3 fallback branch, which fires only when the weight sum is
not positive, is never taken; and when neither song has genre, bpm, energy or
valence and the artists do not match, the weight sum is exactly 0.15 and the
returned score is 0. -/
theorem artist_only_weight_sum_spec (A B : Song) :
    3/20 ≤ sim_weights A B ∧
    (A.genre = none → B.genre = none → A.bpm = none → B.bpm = none →
     A.energy = none → B.energy = none → A.valence = none → B.valence = none →
     artist_match A B = false →
     sim_weights A B = 3/20 ∧ (calculate_similarity A B).1 = 0) := by
  constructor
  · have h1 := genre_factor_weight_nonneg A B
    have h2 := bpm_factor_weight_nonneg A B
    have h3 := energy_factor_weight_nonneg A B
    have h4 := valence_factor_weight_nonneg A B
    have h5 := artist_factor_weight A B
    unfold sim_weights
    linarith
  · intro hg1 hg2 hb1 hb2 he1 he2 hv1 hv2 hart
    have hw : sim_weights A B = 3/20 := by
      unfold sim_weights genre_factor bpm_factor energy_factor valence_factor
        artist_factor strTruthy intTruthy
      rw [hg1, hb1, he1, hv1, hart]
      norm_num
    have hs : sim_score A B = 0 := by
      unfold sim_score genre_factor bpm_factor energy_factor valence_factor
        artist_factor strTruthy intTruthy
      rw [hg1, hb1, he1, hv1, hart]
      norm_num
    refine ⟨hw, ?_⟩
    unfold calculate_similarity
    rw [hw, hs]
    norm_num

/-- A song with no genre, bpm, energy, valence or artist. -/
def songNoAttrA : Song :=
  ⟨3, 1, "x", none, none, none, none, none, none, 100, none, 0⟩

/-- A second song with no comparable attributes. -/
def songNoAttrB : Song :=
  ⟨4, 1, "y", none, none, none, none, none, none, 100, none, 0⟩

/-- Closed witness for `artist_only_weight_sum_spec` at two attribute-less
songs with absent artists. -/
theorem artist_only_weight_sum_spec_witness :
    3/20 ≤ sim_weights songNoAttrA songNoAttrB ∧
    (sim_weights songNoAttrA songNoAttrB = 3/20 ∧
      (calculate_similarity songNoAttrA songNoAttrB).1 = 0) :=
  ⟨(artist_only_weight_sum_spec songNoAttrA songNoAttrB).1,
    (artist_only_weight_sum_spec songNoAttrA songNoAttrB).2 rfl rfl rfl rfl rfl rfl
      rfl rfl (by decide)⟩

/-- Claim C7: for all songs A and B, the similarity score returned by
`_calculate_similarity(A, B)` equals the one returned by
`_calculate_similarity(B, A)`. -/
theorem similarity_score_symm (A B : Song) :
    (calculate_similarity A B).1 = (calculate_similarity B A).1 := by
  unfold calculate_similarity sim_score sim_weights
  rw [genre_factor_comm, bpm_factor_comm, energy_factor_comm, valence_factor_comm,
    artist_factor_comm]

/-- Transition style enum of `app.models.mood_chain.TransitionStyle`. -/
inductive TransitionStyle where
  | smooth
  | random
  | energyFlow
  | genreMatch
  deriving Repr, DecidableEq

/-- One row of `mood_chain_transitions`: a directed weighted edge of a chain. -/
structure Transition where
  fromSong : Nat
  toSong : Nat
  weight : ℚ
  playCount : Nat
  deriving Repr, DecidableEq

/-- State of one mood chain: its `mood_chain_songs` rows as (song id, position)
pairs, its `mood_chain_transitions` rows, and its play statistics.  The
`song_count` column is recalculated from the rows after every mutation in the
source, so it is represented by `rows.length`. -/
structure Chain where
  rows : List (Nat × Nat)
  transitions : List Transition
  style : TransitionStyle
  playCount : Nat
  lastPlayedAt : Option Nat
  deriving Repr, DecidableEq

/-- Song ids currently member of the chain. -/
def members (c : Chain) : List Nat :=
  c.rows.map Prod.fst

/-- Domain error conditions raised by `MoodChainService`. -/
inductive ChainError where
  | moodChainNotFound
  | songNotFound
  | songAlreadyInMoodChain
  | songNotInMoodChain
  | invalidSongIds
  deriving Repr, DecidableEq

/-- Embedding of `add_song_to_mood_chain` (mood_chain.py lines 291-364) acting
on one chain.  `lib` is the set of song ids owned by the caller (the
`_get_song` lookup).  A missing position defaults to the current song count;
rows at or after the requested position are shifted up by one. -/
def add_song_to_mood_chain (lib : List Nat) (c : Chain) (songId : Nat)
    (position : Option Nat) : Except ChainError Chain :=
  if songId ∈ lib then
    if songId ∈ members c then .error .songAlreadyInMoodChain
    else
      let p := position.getD c.rows.length
      let shifted := c.rows.map fun r => if p ≤ r.2 then (r.1, r.2 + 1) else r
      .ok { c with rows := shifted ++ [(songId, p)] }
  else .error .songNotFound

/-- Embedding of `remove_song_from_mood_chain` (mood_chain.py lines 366-432).
The association row is deleted and later rows are shifted down by one.  The
statement at lines 400-408, introduced by the comment "Also remove transitions
involving this song", executes `select(...)` with a `synchronize_session`
option, not `delete(...)`: it reads the matching transition rows and discards
the result, so the transitions of the chain are left unchanged, and the
embedding reflects that. -/
def remove_song_from_mood_chain (c : Chain) (songId : Nat) :
    Except ChainError Chain :=
  match c.rows.find? (fun r => r.1 == songId) with
  | none => .error .songNotInMoodChain
  | some row =>
    let remaining := c.rows.eraseP (fun r => r.1 == songId)
    let shifted := remaining.map fun r => if row.2 < r.2 then (r.1, r.2 - 1) else r
    .ok { c with rows := shifted }

/-- Match predicate for looking up the transition row keyed by an endpoint
pair, as in the service queries on `MoodChainTransition`. -/
def matchTr (e : Transition) (f t : Nat) : Bool :=
  e.fromSong == f && e.toSong == t

/-- Lookup of the transition (from, to) in a chain (the unique-index query of
`record_transition_played` and `update_transitions`). -/
def findTransition (c : Chain) (f t : Nat) : Option Transition :=
  c.transitions.find? (fun e => matchTr e f t)

/-- In-place update of the found transition row in `record_transition_played`:
increment the play count and raise the weight by 0.05 capped at 1.0. -/
def bumpFirst : List Transition → Nat → Nat → List Transition
  | [], _, _ => []
  | e :: rest, f, t =>
    if matchTr e f t then
      ⟨e.fromSong, e.toSong, min 1 (e.weight + 1/20), e.playCount + 1⟩ :: rest
    else e :: bumpFirst rest f t

/-- Embedding of `record_transition_played` (mood_chain.py lines 774-828).
`now` stands for `datetime.now(UTC)`.  An existing edge is reinforced, a
missing edge is created with weight 0.6 and play count 1, and the chain's own
play statistics are updated in both cases. -/
def record_transition_played (c : Chain) (f t now : Nat) : Chain :=
  let transitions :=
    match findTransition c f t with
    | some _ => bumpFirst c.transitions f t
    | none => c.transitions ++ [⟨f, t, 3/5, 1⟩]
  { c with transitions := transitions, playCount := c.playCount + 1,
           lastPlayedAt := some now }

/-- Iterated `record_transition_played` on the same endpoint pair. -/
def recordN (c : Chain) (f t now : Nat) : Nat → Chain
  | 0 => c
  | n + 1 => record_transition_played (recordN c f t now n) f t now

/-- Upsert step of `update_transitions` (mood_chain.py lines 511-530): set the
weight of the existing row, or insert a new row with default play count 0. -/
def upsertWeight : List Transition → Nat → Nat → ℚ → List Transition
  | [], f, t, w => [⟨f, t, w, 0⟩]
  | e :: rest, f, t, w =>
    if matchTr e f t then ⟨e.fromSong, e.toSong, w, e.playCount⟩ :: rest
    else e :: upsertWeight rest f t w

/-- Embedding of `update_transitions` (mood_chain.py lines 477-536): pairs
whose endpoints are not both chain members are skipped; the rest are
upserted with the supplied weight. -/
def update_transitions (c : Chain) (ts : List (Nat × Nat × ℚ)) : Chain :=
  let songIdsInChain := members c
  ts.foldl
    (fun ch tr =>
      if tr.1 ∈ songIdsInChain ∧ tr.2.1 ∈ songIdsInChain then
        { ch with transitions := upsertWeight ch.transitions tr.1 tr.2.1 tr.2.2 }
      else ch)
    c

/-- Invariant claimed by the spec: every transition's endpoints are current
chain members. -/
def edgeEndpointsAreMembers (c : Chain) : Prop :=
  ∀ e ∈ c.transitions, e.fromSong ∈ members c ∧ e.toSong ∈ members c

/-- Concrete chain for C1: members 1 and 2, and one learned edge 1 → 2. -/
def chainC1 : Chain :=
  ⟨[(1, 0), (2, 1)], [⟨1, 2, 1/2, 0⟩], .smooth, 0, none⟩

/-- Claim C1, failing input: on a chain with members 1 and 2 and the edge
1 → 2, removing song 1 succeeds but leaves the edge 1 → 2 in place (the code
only selects, never deletes, the incident transitions), and adding song 1 back
leaves it a member with the old incident edge still present. -/
theorem remove_song_keeps_incident_transitions :
    (remove_song_from_mood_chain chainC1 1).toOption =
      some ⟨[(2, 0)], [⟨1, 2, 1/2, 0⟩], .smooth, 0, none⟩ ∧
    ((remove_song_from_mood_chain chainC1 1).bind
        (fun c => add_song_to_mood_chain [1, 2] c 1 none)).toOption =
      some ⟨[(2, 0), (1, 1)], [⟨1, 2, 1/2, 0⟩], .smooth, 0, none⟩ :=
  ⟨rfl, rfl⟩

/-- Concrete chain for C2: members 1, 2, 3 and one edge 2 → 3. -/
def chainC2 : Chain :=
  ⟨[(1, 0), (2, 1), (3, 2)], [⟨2, 3, 1/2, 0⟩], .smooth, 0, none⟩

/-- Concrete memberless chain for C2's record path. -/
def chainC2empty : Chain :=
  ⟨[], [], .smooth, 0, none⟩

/-- Claim C2, failing input: the edge-endpoints-are-members invariant holds on
a chain with members 1, 2, 3 and edge 2 → 3, but after removing member 3 the
edge 2 → 3 survives with a non-member endpoint; moreover
`record_transition_played` creates an edge 5 → 6 on a memberless chain without
any membership check. -/
theorem edge_membership_invariant_broken_by_remove :
    edgeEndpointsAreMembers chainC2 ∧
    (remove_song_from_mood_chain chainC2 3).toOption =
      some ⟨[(1, 0), (2, 1)], [⟨2, 3, 1/2, 0⟩], .smooth, 0, none⟩ ∧
    ¬ edgeEndpointsAreMembers ⟨[(1, 0), (2, 1)], [⟨2, 3, 1/2, 0⟩], .smooth, 0, none⟩ ∧
    ¬ edgeEndpointsAreMembers (record_transition_played chainC2empty 5 6 0) := by
  refine ⟨?_, rfl, ?_, ?_⟩
  · intro e he
    have he2 : e ∈ [(⟨2, 3, 1/2, 0⟩ : Transition)] := he
    rw [List.mem_singleton] at he2
    subst he2
    exact ⟨by decide, by decide⟩
  · intro h
    have h2 := h ⟨2, 3, 1/2, 0⟩ (List.mem_singleton_self _)
    have h3 : (3 : Nat) ∈ [1, 2] := h2.2
    simp at h3
  · intro h
    have h2 := h ⟨5, 6, 3/5, 1⟩ (List.mem_singleton_self _)
    have h5 : (5 : Nat) ∈ ([] : List Nat) := h2.1
    exact List.not_mem_nil _ h5

theorem bumpFirst_append_of_none (l l2 : List Transition) (f t : Nat)
    (h : ∀ e ∈ l, matchTr e f t = false) :
    bumpFirst (l ++ l2) f t = l ++ bumpFirst l2 f t := by
  induction l with
  | nil => rfl
  | cons e rest ih =>
    have he := h e (List.mem_cons_self _ _)
    simp only [List.cons_append, bumpFirst, he, Bool.false_eq_true, if_false,
      List.cons.injEq, true_and]
    exact ih fun x hx => h x (List.mem_cons_of_mem _ hx)

theorem find?_matchTr_append_of_none (l l2 : List Transition) (f t : Nat)
    (h : ∀ e ∈ l, matchTr e f t = false) :
    (l ++ l2).find? (fun e => matchTr e f t) = l2.find? (fun e => matchTr e f t) := by
  induction l with
  | nil => rfl
  | cons e rest ih =>
    have he := h e (List.mem_cons_self _ _)
    rw [List.cons_append]
    simp only [List.find?, he]
    exact ih fun x hx => h x (List.mem_cons_of_mem _ hx)

theorem matchTr_self (f t : Nat) (w : ℚ) (n : Nat) :
    matchTr ⟨f, t, w, n⟩ f t = true := by
  simp [matchTr]

theorem find?_bumpFirst (l : List Transition) (f t : Nat) (e : Transition)
    (h : l.find? (fun x => matchTr x f t) = some e) :
    (bumpFirst l f t).find? (fun x => matchTr x f t) =
      some ⟨e.fromSong, e.toSong, min 1 (e.weight + 1/20), e.playCount + 1⟩ := by
  induction l with
  | nil => simp [List.find?] at h
  | cons a rest ih =>
    cases ha : matchTr a f t with
    | true =>
      simp only [List.find?, ha] at h
      cases h
      simp only [bumpFirst, ha, if_true]
      have hm : matchTr ⟨e.fromSong, e.toSong, min 1 (e.weight + 1/20),
          e.playCount + 1⟩ f t = true := by
        simp only [matchTr] at ha ⊢
        exact ha
      simp only [List.find?, hm]
    | false =>
      simp only [List.find?, ha] at h
      simp only [bumpFirst, ha, Bool.false_eq_true, if_false]
      simp only [List.find?, ha]
      exact ih h

theorem min_cap_step (k : ℕ) :
    min (1:ℚ) (min 1 (3/5 + (k : ℚ) * (1/20)) + 1/20) =
      min 1 (3/5 + ((k + 1 : ℕ) : ℚ) * (1/20)) := by
  push_cast
  rcases le_or_lt (3/5 + (k : ℚ) * (1/20)) 1 with h | h
  · rw [min_eq_right h]
    congr 1
    ring
  · rw [min_eq_left h.le, min_eq_left (by norm_num), min_eq_left (by linarith)]

theorem recordN_fresh (c : Chain) (f t now : Nat)
    (hfresh : findTransition c f t = none) (k : Nat) :
    (recordN c f t now (k + 1)).transitions =
      c.transitions ++ [⟨f, t, min 1 (3/5 + (k : ℚ) * (1/20)), k + 1⟩] ∧
    (recordN c f t now (k + 1)).playCount = c.playCount + (k + 1) ∧
    (recordN c f t now (k + 1)).lastPlayedAt = some now := by
  have hnone : ∀ e ∈ c.transitions, matchTr e f t = false := by
    intro e he
    have h1 := List.find?_eq_none.mp hfresh e he
    simpa using h1
  induction k with
  | zero =>
    refine ⟨?_, rfl, rfl⟩
    show (record_transition_played c f t now).transitions = _
    simp only [record_transition_played, hfresh]
    have h35 : min (1:ℚ) (3/5 + ((0 : ℕ) : ℚ) * (1/20)) = 3/5 := by
      push_cast
      norm_num [min_def]
    rw [h35]
  | succ k ih =>
    obtain ⟨ht, hp, _⟩ := ih
    have hfind : findTransition (recordN c f t now (k + 1)) f t =
        some ⟨f, t, min 1 (3/5 + (k : ℚ) * (1/20)), k + 1⟩ := by
      unfold findTransition
      rw [ht, find?_matchTr_append_of_none _ _ _ _ hnone]
      simp only [List.find?, matchTr_self]
    have hbump : bumpFirst (recordN c f t now (k + 1)).transitions f t =
        c.transitions ++ [⟨f, t, min 1 (3/5 + ((k + 1 : ℕ) : ℚ) * (1/20)), k + 2⟩] := by
      rw [ht, bumpFirst_append_of_none _ _ _ _ hnone]
      simp only [bumpFirst, matchTr_self, if_true]
      rw [min_cap_step]
    refine ⟨?_, ?_, rfl⟩
    · show (record_transition_played (recordN c f t now (k + 1)) f t now).transitions = _
      simp only [record_transition_played, hfind]
      exact hbump
    · show (record_transition_played (recordN c f t now (k + 1)) f t now).playCount = _
      simp only [record_transition_played]
      rw [hp]
      omega

/-- Claim C8: `record_transition_played` bumps an existing edge's play count by
one and caps its weight at 1.0 after adding 0.05, creates a missing edge with
weight 0.6 and play count 1, and in both cases increments the chain play count
and stamps `last_played_at`; N consecutive calls on a fresh pair leave play
count N and weight min(1, 0.6 + (N-1)*0.05), which reaches the 1.0 cap at the
9th call and is still below 1 after the 8th. -/
theorem record_transition_played_spec (c : Chain) (f t now : Nat) (N : Nat) :
    (∀ e, findTransition c f t = some e →
      findTransition (record_transition_played c f t now) f t =
        some ⟨e.fromSong, e.toSong, min 1 (e.weight + 1/20), e.playCount + 1⟩) ∧
    (findTransition c f t = none →
      findTransition (record_transition_played c f t now) f t = some ⟨f, t, 3/5, 1⟩) ∧
    (record_transition_played c f t now).playCount = c.playCount + 1 ∧
    (record_transition_played c f t now).lastPlayedAt = some now ∧
    (findTransition c f t = none → 1 ≤ N →
      findTransition (recordN c f t now N) f t =
        some ⟨f, t, min 1 (3/5 + ((N - 1 : ℕ) : ℚ) * (1/20)), N⟩ ∧
      (recordN c f t now N).playCount = c.playCount + N ∧
      (recordN c f t now N).lastPlayedAt = some now) ∧
    min (1:ℚ) (3/5 + ((9 - 1 : ℕ) : ℚ) * (1/20)) = 1 ∧
    min (1:ℚ) (3/5 + ((8 - 1 : ℕ) : ℚ) * (1/20)) < 1 := by
  refine ⟨?_, ?_, rfl, rfl, ?_, ?_, ?_⟩
  · intro e he
    simp only [record_transition_played, he]
    unfold findTransition at he ⊢
    exact find?_bumpFirst _ _ _ _ he
  · intro hf
    simp only [record_transition_played, hf]
    unfold findTransition at hf ⊢
    have hnone : ∀ e ∈ c.transitions, matchTr e f t = false := by
      intro e he
      simpa using List.find?_eq_none.mp hf e he
    rw [find?_matchTr_append_of_none _ _ _ _ hnone]
    simp only [List.find?, matchTr_self]
  · intro hf hN
    obtain ⟨k, rfl⟩ : ∃ k, N = k + 1 := ⟨N - 1, (Nat.succ_pred_eq_of_pos hN).symm⟩
    obtain ⟨ht, hp, hl⟩ := recordN_fresh c f t now hf k
    have hnone : ∀ e ∈ c.transitions, matchTr e f t = false := by
      intro e he
      simpa using List.find?_eq_none.mp hf e he
    refine ⟨?_, hp, hl⟩
    unfold findTransition
    rw [ht, find?_matchTr_append_of_none _ _ _ _ hnone]
    simp only [List.find?, matchTr_self]
    simp
  · push_cast
    norm_num [min_def]
  · push_cast
    norm_num [min_def]

/-- Fresh two-member chain with no learned edges for the C8 witness. -/
def chainC8 : Chain := ⟨[(1, 0), (2, 1)], [], .smooth, 0, none⟩

/-- Closed witness for `record_transition_played_spec`: nine plays of the fresh
pair (1, 2) on `chainC8`. -/
theorem record_transition_played_spec_witness :
    findTransition (recordN chainC8 1 2 7 9) 1 2 =
      some ⟨1, 2, min 1 (3/5 + ((9 - 1 : ℕ) : ℚ) * (1/20)), 9⟩ ∧
    (recordN chainC8 1 2 7 9).playCount = chainC8.playCount + 9 ∧
    min (1:ℚ) (3/5 + ((9 - 1 : ℕ) : ℚ) * (1/20)) = 1 :=
  ⟨((record_transition_played_spec chainC8 1 2 7 9).2.2.2.2.1 rfl (by norm_num)).1,
   ((record_transition_played_spec chainC8 1 2 7 9).2.2.2.2.1 rfl (by norm_num)).2.1,
   (record_transition_played_spec chainC8 1 2 7 9).2.2.2.2.2.1⟩

/-- Seeding loop of `create_mood_chain` (mood_chain.py lines 179-191):
`for position, song_id in enumerate(data.song_ids)` with the `_get_song`
existence check; the enumerate position advances even when the lookup fails
and the id is skipped. -/
def seedRows (lib : List Nat) (position : Nat) : List Nat → List (Nat × Nat)
  | [] => []
  | s :: rest =>
    if s ∈ lib then (s, position) :: seedRows lib (position + 1) rest
    else seedRows lib (position + 1) rest

/-- Embedding of `create_mood_chain` (mood_chain.py lines 155-195) for a chain
seeded with the requested song ids, owned library `lib`. -/
def create_mood_chain (lib : List Nat) (songIds : List Nat) : Chain :=
  ⟨seedRows lib 0 songIds, [], .smooth, 0, none⟩

/-- Inner loop body of `reorder_mood_chain_songs` (lines 464-468): update the
position of the first association row with the given song id, then break. -/
def updateFirstPos : List (Nat × Nat) → Nat → Nat → List (Nat × Nat)
  | [], _, _ => []
  | r :: rest, songId, p =>
    if r.1 == songId then (r.1, p) :: rest else r :: updateFirstPos rest songId p

/-- Position-assignment loop of `reorder_mood_chain_songs`:
`for position, song_id in enumerate(song_ids)`. -/
def assignPositions (rows : List (Nat × Nat)) (position : Nat) :
    List Nat → List (Nat × Nat)
  | [] => rows
  | s :: rest => assignPositions (updateFirstPos rows s position) (position + 1) rest

/-- Embedding of `reorder_mood_chain_songs` (mood_chain.py lines 434-475): the
guard compares the two id *sets*; on success positions are assigned by the
enumerate loop. -/
def reorder_mood_chain_songs (c : Chain) (songIds : List Nat) :
    Except ChainError Chain :=
  if songIds.all (fun s => decide (s ∈ members c)) &&
      (members c).all (fun s => decide (s ∈ songIds)) then
    .ok { c with rows := assignPositions c.rows 0 songIds }
  else .error .invalidSongIds

/-- A membership mutation of one chain. -/
inductive ChainOp where
  | add (songId : Nat) (position : Option Nat)
  | remove (songId : Nat)
  | reorder (songIds : List Nat)
  deriving Repr

/-- Apply one mutation; a raised service error leaves the chain unchanged
(every service error is raised before any mutation). -/
def applyOp (lib : List Nat) (c : Chain) : ChainOp → Chain
  | .add s p => ((add_song_to_mood_chain lib c s p).toOption).getD c
  | .remove s => ((remove_song_from_mood_chain c s).toOption).getD c
  | .reorder ids => ((reorder_mood_chain_songs c ids).toOption).getD c

/-- Run a sequence of membership mutations. -/
def runOps (lib : List Nat) (c : Chain) (ops : List ChainOp) : Chain :=
  ops.foldl (applyOp lib) c

/-- Preconditions of the amended C3 claim: a requested add position is at most
the current member count, and a reorder sequence is duplicate-free. -/
def opOK (c : Chain) : ChainOp → Bool
  | .add _ none => true
  | .add _ (some p) => decide (p ≤ c.rows.length)
  | .remove _ => true
  | .reorder ids => decide ids.Nodup

/-- Every operation of the sequence satisfies `opOK` at the state where it
executes. -/
def goodOps (lib : List Nat) : Chain → List ChainOp → Bool
  | _, [] => true
  | c, op :: rest => opOK c op && goodOps lib (applyOp lib c op) rest

/-- The C3 invariant: the multiset of positions of the current rows is exactly
{0, ..., N-1} where N is the member count. -/
def positionsContiguous (c : Chain) : Prop :=
  (↑(c.rows.map Prod.snd) : Multiset ℕ) = Multiset.range c.rows.length

/-- Auxiliary invariant: no song id appears on two rows. -/
def membersNodup (c : Chain) : Prop :=
  (members c).Nodup

theorem shift_up_range (n p : ℕ) (h : p ≤ n) :
    Multiset.map (fun q => if p ≤ q then q + 1 else q) (Multiset.range n) + {p} =
      Multiset.range (n + 1) := by
  induction n with
  | zero =>
    obtain rfl : p = 0 := Nat.le_zero.mp h
    simp [Multiset.range_succ]
  | succ n ih =>
    rcases Nat.lt_or_ge p (n + 1) with hp | hp
    · have hpn : p ≤ n := Nat.lt_succ_iff.mp hp
      rw [Multiset.range_succ, Multiset.map_cons, if_pos hpn,
        Multiset.cons_add, ih hpn, ← Multiset.range_succ]
    · obtain rfl : p = n + 1 := le_antisymm h hp
      have hid : Multiset.map (fun q => if n + 1 ≤ q then q + 1 else q)
          (Multiset.range (n + 1)) = Multiset.range (n + 1) := by
        rw [show Multiset.range (n + 1) =
            Multiset.map id (Multiset.range (n + 1)) from (Multiset.map_id _).symm]
        rw [Multiset.map_map]
        refine Multiset.map_congr rfl ?_
        intro q hq
        have : q < n + 1 := Multiset.mem_range.mp (by simpa using hq)
        simp [Nat.not_le.mpr this]
      rw [hid, add_comm, Multiset.singleton_add, ← Multiset.range_succ]

theorem shift_down_range (n p : ℕ) (h : p < n) :
    Multiset.map (fun q => if p < q then q - 1 else q) ((Multiset.range n).erase p) =
      Multiset.range (n - 1) := by
  obtain ⟨m, rfl⟩ : ∃ m, n = m + 1 := ⟨n - 1, (Nat.succ_pred_eq_of_pos (Nat.pos_of_ne_zero
    (by omega))).symm⟩
  have hp : p ≤ m := Nat.lt_succ_iff.mp h
  have h1 : (Multiset.range (m + 1)).erase p =
      Multiset.map (fun q => if p ≤ q then q + 1 else q) (Multiset.range m) := by
    rw [← shift_up_range m p hp, add_comm, Multiset.singleton_add,
      Multiset.erase_cons_head]
  rw [h1, Multiset.map_map]
  have h2 : ∀ q ∈ Multiset.range m,
      ((fun q => if p < q then q - 1 else q) ∘ fun q => if p ≤ q then q + 1 else q) q =
        id q := by
    intro q _
    by_cases hpq : p ≤ q
    · simp [Function.comp, hpq, Nat.lt_succ_iff.mpr hpq]
    · have hqp : ¬ p < q := fun hlt => hpq hlt.le
      simp [Function.comp, hpq, hqp]
  rw [Multiset.map_congr rfl h2, Multiset.map_id]
  simp

theorem find?_append_of_none {α : Type} (l l2 : List α) (p : α → Bool)
    (h : ∀ x ∈ l, p x = false) :
    (l ++ l2).find? p = l2.find? p := by
  induction l with
  | nil => rfl
  | cons e rest ih =>
    have he := h e (List.mem_cons_self _ _)
    rw [List.cons_append]
    simp only [List.find?, he]
    exact ih fun x hx => h x (List.mem_cons_of_mem _ hx)

theorem snd_shift_map (rows : List (Nat × Nat)) (f : Nat → Nat) (cond : Nat → Prop)
    [DecidablePred cond] :
    ((rows.map fun r => if cond r.2 then (r.1, f r.2) else r).map Prod.snd) =
      (rows.map Prod.snd).map fun x => if cond x then f x else x := by
  rw [List.map_map, List.map_map]
  apply List.map_congr_left
  intro r _
  by_cases h : cond r.2 <;> simp [Function.comp, h]

theorem fst_shift_map (rows : List (Nat × Nat)) (f : Nat → Nat) (cond : Nat → Prop)
    [DecidablePred cond] :
    ((rows.map fun r => if cond r.2 then (r.1, f r.2) else r).map Prod.fst) =
      rows.map Prod.fst := by
  rw [List.map_map]
  apply List.map_congr_left
  intro r _
  by_cases h : cond r.2 <;> simp [Function.comp, h]

theorem add_song_preserves (lib : List Nat) (c : Chain) (s : Nat) (p : Option Nat)
    (h1 : positionsContiguous c) (h2 : membersNodup c)
    (hok : opOK c (.add s p) = true) :
    positionsContiguous (applyOp lib c (.add s p)) ∧
      membersNodup (applyOp lib c (.add s p)) := by
  by_cases hs : s ∈ lib
  · by_cases hm : s ∈ members c
    · have hc : applyOp lib c (.add s p) = c := by
        simp [applyOp, add_song_to_mood_chain, hs, hm, Except.toOption]
      rw [hc]
      exact ⟨h1, h2⟩
    · have happ : applyOp lib c (.add s p) =
          { c with rows := (c.rows.map fun r =>
              if p.getD c.rows.length ≤ r.2 then (r.1, r.2 + 1) else r)
            ++ [(s, p.getD c.rows.length)] } := by
        simp [applyOp, add_song_to_mood_chain, hs, hm, Except.toOption]
      have hqle : p.getD c.rows.length ≤ c.rows.length := by
        cases p with
        | none => simp
        | some v => simpa [opOK] using hok
      rw [happ]
      constructor
      · show (↑(((c.rows.map fun r =>
            if p.getD c.rows.length ≤ r.2 then (r.1, r.2 + 1) else r)
              ++ [(s, p.getD c.rows.length)]).map Prod.snd) : Multiset ℕ) =
          Multiset.range ((c.rows.map fun r =>
            if p.getD c.rows.length ≤ r.2 then (r.1, r.2 + 1) else r)
              ++ [(s, p.getD c.rows.length)]).length
        rw [List.map_append, snd_shift_map c.rows (fun x => x + 1)
          (fun x => p.getD c.rows.length ≤ x)]
        have hcoe : (↑(((c.rows.map Prod.snd).map fun x =>
              if p.getD c.rows.length ≤ x then x + 1 else x)
                ++ [(s, p.getD c.rows.length)].map Prod.snd) : Multiset ℕ) =
            Multiset.map (fun x => if p.getD c.rows.length ≤ x then x + 1 else x)
              (↑(c.rows.map Prod.snd)) + {p.getD c.rows.length} := rfl
        rw [hcoe, h1, shift_up_range _ _ hqle]
        congr 1
        simp
      · show (((c.rows.map fun r =>
            if p.getD c.rows.length ≤ r.2 then (r.1, r.2 + 1) else r)
              ++ [(s, p.getD c.rows.length)]).map Prod.fst).Nodup
        rw [List.map_append, fst_shift_map c.rows (fun x => x + 1)
          (fun x => p.getD c.rows.length ≤ x)]
        simp only [List.map_cons, List.map_nil]
        refine List.nodup_append.mpr ⟨h2, List.nodup_singleton _, ?_⟩
        rw [List.disjoint_singleton]
        exact hm
  · have hc : applyOp lib c (.add s p) = c := by
      simp [applyOp, add_song_to_mood_chain, hs, Except.toOption]
    rw [hc]
    exact ⟨h1, h2⟩

theorem remove_song_preserves (lib : List Nat) (c : Chain) (s : Nat)
    (h1 : positionsContiguous c) (h2 : membersNodup c) :
    positionsContiguous (applyOp lib c (.remove s)) ∧
      membersNodup (applyOp lib c (.remove s)) := by
  cases hfind : c.rows.find? (fun r => r.1 == s) with
  | none =>
    have hc : applyOp lib c (.remove s) = c := by
      simp [applyOp, remove_song_from_mood_chain, hfind, Except.toOption]
    rw [hc]
    exact ⟨h1, h2⟩
  | some row =>
    have happ : applyOp lib c (.remove s) =
        { c with rows := List.map (fun r => if row.2 < r.2 then (r.1, r.2 - 1) else r) (c.rows.eraseP fun r => r.1 == s) } := by
      simp [applyOp, remove_song_from_mood_chain, hfind, Except.toOption]
    have hmem := List.mem_of_find?_eq_some hfind
    have hpred := List.find?_some hfind
    obtain ⟨a, l₁, l₂, hl₁, ha, hsplit, herase⟩ :=
      @List.exists_of_eraseP _ (fun r => r.1 == s) _ _ hmem hpred
    have hrow : row = a := by
      have hfa : c.rows.find? (fun r => r.1 == s) = some a := by
        rw [hsplit, find?_append_of_none _ _ _
          (fun x hx => Bool.eq_false_iff.mpr (hl₁ x hx))]
        simp only [List.find?, ha]
      exact Option.some.inj (hfind.symm.trans hfa)
    subst hrow
    have hlen : c.rows.length = l₁.length + l₂.length + 1 := by
      rw [hsplit]
      simp [List.length_append]
      omega
    have hposmem : row.2 < c.rows.length := by
      have hm2 : row.2 ∈ c.rows.map Prod.snd :=
        List.mem_map_of_mem Prod.snd (hsplit ▸ (List.mem_append_right l₁
          (List.mem_cons_self row l₂)))
      have : row.2 ∈ (↑(c.rows.map Prod.snd) : Multiset ℕ) := Multiset.mem_coe.mpr hm2
      rw [h1] at this
      exact Multiset.mem_range.mp this
    have hcoeErase : (↑((c.rows.eraseP (fun r => r.1 == s)).map Prod.snd) : Multiset ℕ) =
        (Multiset.range c.rows.length).erase row.2 := by
      rw [herase, List.map_append]
      have hc1 : (↑(l₁.map Prod.snd ++ l₂.map Prod.snd) : Multiset ℕ) =
          ↑(l₁.map Prod.snd) + ↑(l₂.map Prod.snd) := rfl
      have hc2 : (↑(c.rows.map Prod.snd) : Multiset ℕ) =
          ↑(l₁.map Prod.snd) + row.2 ::ₘ ↑(l₂.map Prod.snd) := by
        rw [hsplit, List.map_append, List.map_cons]
        rfl
      rw [hc1, ← h1, hc2, Multiset.add_cons, Multiset.erase_cons_head]
    rw [happ]
    constructor
    · show (↑(((c.rows.eraseP (fun r => r.1 == s)).map
          fun r => if row.2 < r.2 then (r.1, r.2 - 1) else r).map Prod.snd) : Multiset ℕ) =
        Multiset.range ((c.rows.eraseP (fun r => r.1 == s)).map
          fun r => if row.2 < r.2 then (r.1, r.2 - 1) else r).length
      rw [snd_shift_map _ (fun x => x - 1) (fun x => row.2 < x)]
      have hmapcoe : (↑(((c.rows.eraseP (fun r => r.1 == s)).map Prod.snd).map
            fun x => if row.2 < x then x - 1 else x) : Multiset ℕ) =
          Multiset.map (fun x => if row.2 < x then x - 1 else x)
            (↑((c.rows.eraseP (fun r => r.1 == s)).map Prod.snd)) := rfl
      rw [hmapcoe, hcoeErase, shift_down_range _ _ hposmem]
      congr 1
      have herlen : (c.rows.eraseP (fun r => r.1 == s)).length + 1 = c.rows.length :=
        List.length_eraseP_add_one hmem hpred
      simp only [List.length_map]
      omega
    · show (((c.rows.eraseP (fun r => r.1 == s)).map
          fun r => if row.2 < r.2 then (r.1, r.2 - 1) else r).map Prod.fst).Nodup
      rw [fst_shift_map _ (fun x => x - 1) (fun x => row.2 < x), herase]
      have h2' : (members c).Nodup := h2
      unfold members at h2'
      rw [hsplit, List.map_append, List.map_cons, List.nodup_append] at h2'
      obtain ⟨hn1, hn2, hdisj⟩ := h2'
      rw [List.map_append, List.nodup_append]
      exact ⟨hn1, hn2.of_cons, fun x hx1 hx2 => hdisj hx1 (List.mem_cons_of_mem _ hx2)⟩

theorem updateFirstPos_eq_map (rows : List (Nat × Nat)) (s p : Nat)
    (hnd : (rows.map Prod.fst).Nodup) :
    updateFirstPos rows s p = rows.map fun r => if r.1 = s then (r.1, p) else r := by
  induction rows with
  | nil => rfl
  | cons r rest ih =>
    rw [List.map_cons, List.nodup_cons] at hnd
    cases hr : (r.1 == s) with
    | true =>
      have hr1 : r.1 = s := by simpa using hr
      have hrest : ∀ x ∈ rest, (if x.1 = s then (x.1, p) else x) = x := by
        intro x hx
        have hxs : x.1 ≠ s := fun he => hnd.1 (by
          rw [hr1, ← he]
          exact List.mem_map_of_mem Prod.fst hx)
        rw [if_neg hxs]
      have hmr : (rest.map fun x => if x.1 = s then (x.1, p) else x) = rest := by
        rw [List.map_congr_left hrest]
        exact List.map_id rest
      simp only [updateFirstPos, hr, if_true, List.map_cons, if_pos hr1, hmr]
    | false =>
      have hr1 : ¬ r.1 = s := by simpa using hr
      simp only [updateFirstPos, hr, Bool.false_eq_true, if_false, List.map_cons,
        if_neg hr1]
      rw [ih hnd.2]

theorem fst_updateFirstPos_map (rows : List (Nat × Nat)) (s p : Nat) :
    ((rows.map fun r => if r.1 = s then (r.1, p) else r).map Prod.fst) =
      rows.map Prod.fst := by
  rw [List.map_map]
  apply List.map_congr_left
  intro r _
  by_cases h : r.1 = s <;> simp [Function.comp, h]

theorem assignPositions_eq (ids : List Nat) : ∀ (rows : List (Nat × Nat)) (k : Nat),
    (rows.map Prod.fst).Nodup → ids.Nodup →
    assignPositions rows k ids =
      rows.map fun r => if r.1 ∈ ids then (r.1, k + ids.indexOf r.1) else r := by
  induction ids with
  | nil =>
    intro rows k _ _
    show rows = rows.map fun r =>
      if r.1 ∈ ([] : List Nat) then (r.1, k + List.indexOf r.1 []) else r
    simp only [List.not_mem_nil, if_false]
    exact (List.map_id rows).symm
  | cons s rest ih =>
    intro rows k hnd h2
    simp only [assignPositions]
    rw [updateFirstPos_eq_map rows s k hnd]
    have hnd2 : (((rows.map fun r => if r.1 = s then (r.1, k) else r).map Prod.fst)).Nodup := by
      rw [fst_updateFirstPos_map]
      exact hnd
    rw [ih _ (k + 1) hnd2 h2.of_cons, List.map_map]
    apply List.map_congr_left
    intro r _
    have hsrest : s ∉ rest := (List.nodup_cons.mp h2).1
    by_cases hrs : r.1 = s
    · have hnr : r.1 ∉ rest := hrs ▸ hsrest
      simp only [Function.comp, if_pos hrs, hnr, hsrest, if_false, List.mem_cons, hrs,
        true_or, if_true, List.indexOf_cons_self, Nat.add_zero]
    · by_cases hmem : r.1 ∈ rest
      · have hne : s ≠ r.1 := fun he => hrs he.symm
        simp only [Function.comp, if_neg hrs, hmem, if_true, List.mem_cons,
          or_true, List.indexOf_cons_ne _ hne]
        rw [Prod.mk.injEq]
        exact ⟨rfl, by omega⟩
      · have hmem2 : r.1 ∉ s :: rest := by
          intro hx
          rcases List.mem_cons.mp hx with hx | hx
          · exact hrs hx
          · exact hmem hx
        simp only [Function.comp, if_neg hrs, hmem, if_false, hmem2]

theorem map_indexOf_self (ids : List Nat) (h : ids.Nodup) :
    (ids.map fun s => ids.indexOf s) = List.range ids.length := by
  induction ids with
  | nil => rfl
  | cons x rest ih =>
    rw [List.length_cons, List.range_succ_eq_map, List.map_cons,
      List.indexOf_cons_self, ← ih h.of_cons, List.map_map]
    congr 1
    apply List.map_congr_left
    intro a ha
    have hax : x ≠ a := fun he => (List.nodup_cons.mp h).1 (he ▸ ha)
    simp [Function.comp, List.indexOf_cons_ne _ hax, Nat.succ_eq_add_one]

theorem reorder_preserves (lib : List Nat) (c : Chain) (ids : List Nat)
    (h1 : positionsContiguous c) (h2 : membersNodup c) (hok : ids.Nodup) :
    positionsContiguous (applyOp lib c (.reorder ids)) ∧
      membersNodup (applyOp lib c (.reorder ids)) := by
  by_cases hset : (ids.all (fun s => decide (s ∈ members c)) &&
      (members c).all (fun s => decide (s ∈ ids))) = true
  · have hmem : ∀ a, a ∈ members c ↔ a ∈ ids := by
      rw [Bool.and_eq_true, List.all_eq_true, List.all_eq_true] at hset
      intro a
      constructor
      · intro h
        simpa using hset.2 a h
      · intro h
        simpa using hset.1 a h
    have happ : applyOp lib c (.reorder ids) =
        { c with rows := assignPositions c.rows 0 ids } := by
      simp [applyOp, reorder_mood_chain_songs, hset, Except.toOption]
    have hperm : (members c).Perm ids := (List.perm_ext_iff_of_nodup h2 hok).mpr hmem
    have hall : ∀ r ∈ c.rows, r.1 ∈ ids :=
      fun r hr => (hmem r.1).mp (List.mem_map_of_mem Prod.fst hr)
    have hassign : assignPositions c.rows 0 ids =
        c.rows.map fun r => (r.1, ids.indexOf r.1) := by
      rw [assignPositions_eq ids c.rows 0 h2 hok]
      apply List.map_congr_left
      intro r hr
      rw [if_pos (hall r hr), Nat.zero_add]
    rw [happ]
    constructor
    · show (↑((assignPositions c.rows 0 ids).map Prod.snd) : Multiset ℕ) =
        Multiset.range (assignPositions c.rows 0 ids).length
      rw [hassign, List.map_map]
      have hsnd : (Prod.snd ∘ fun (r : Nat × Nat) => (r.1, ids.indexOf r.1)) =
          (fun x => ids.indexOf x) ∘ Prod.fst := rfl
      rw [hsnd, ← List.map_map]
      have hcoe : (↑(List.map (fun x => ids.indexOf x) (c.rows.map Prod.fst)) : Multiset ℕ) =
          Multiset.map (fun x => ids.indexOf x) ↑(members c) := rfl
      rw [hcoe, show (↑(members c) : Multiset ℕ) = ↑ids from Multiset.coe_eq_coe.mpr hperm]
      have hmapl : Multiset.map (fun x => ids.indexOf x) (↑ids : Multiset ℕ) =
          ↑(List.range ids.length) := by
        have : Multiset.map (fun x => ids.indexOf x) (↑ids : Multiset ℕ) =
            ↑(ids.map fun x => ids.indexOf x) := rfl
        rw [this, map_indexOf_self ids hok]
      rw [hmapl]
      have hlenr : (c.rows.map fun r => ((r.1 : ℕ), ids.indexOf r.1)).length = ids.length := by
        rw [List.length_map, ← hperm.length_eq]
        exact (List.length_map c.rows Prod.fst).symm
      rw [hlenr]
      rfl
    · show (((assignPositions c.rows 0 ids).map Prod.fst)).Nodup
      rw [hassign, List.map_map]
      have : (Prod.fst ∘ fun (r : Nat × Nat) => (r.1, ids.indexOf r.1)) = Prod.fst := rfl
      rw [this]
      exact h2
  · have hc : applyOp lib c (.reorder ids) = c := by
      simp only [applyOp, reorder_mood_chain_songs]
      rw [if_neg (by simpa using hset)]
      rfl
    rw [hc]
    exact ⟨h1, h2⟩

theorem applyOp_preserves (lib : List Nat) (c : Chain) (op : ChainOp)
    (h1 : positionsContiguous c) (h2 : membersNodup c) (hok : opOK c op = true) :
    positionsContiguous (applyOp lib c op) ∧ membersNodup (applyOp lib c op) := by
  cases op with
  | add s p => exact add_song_preserves lib c s p h1 h2 hok
  | remove s => exact remove_song_preserves lib c s h1 h2
  | reorder ids =>
    have hnd : ids.Nodup := by simpa [opOK] using hok
    exact reorder_preserves lib c ids h1 h2 hnd

theorem runOps_preserves (lib : List Nat) (ops : List ChainOp) :
    ∀ c, positionsContiguous c → membersNodup c → goodOps lib c ops = true →
      positionsContiguous (runOps lib c ops) ∧ membersNodup (runOps lib c ops) := by
  induction ops with
  | nil =>
    intro c h1 h2 _
    exact ⟨h1, h2⟩
  | cons op rest ih =>
    intro c h1 h2 hgood
    rw [show goodOps lib c (op :: rest) =
      (opOK c op && goodOps lib (applyOp lib c op) rest) from rfl,
      Bool.and_eq_true] at hgood
    have hstep := applyOp_preserves lib c op h1 h2 hgood.1
    exact ih _ hstep.1 hstep.2 hgood.2

theorem seedRows_all_found (lib : List Nat) (ids : List Nat) :
    ∀ k, (∀ s ∈ ids, s ∈ lib) →
      (seedRows lib k ids).map Prod.fst = ids ∧
      (seedRows lib k ids).map Prod.snd = List.range' k ids.length := by
  induction ids with
  | nil =>
    intro k _
    exact ⟨rfl, rfl⟩
  | cons s rest ih =>
    intro k h
    have hs : s ∈ lib := h s (List.mem_cons_self _ _)
    obtain ⟨hf, hsnd⟩ := ih (k + 1) fun x hx => h x (List.mem_cons_of_mem _ hx)
    simp only [seedRows, if_pos hs, List.map_cons, List.length_cons, List.range'_succ]
    exact ⟨by rw [hf], by rw [hsnd]⟩

/-- Claim C3, counterexample: starting from an empty chain, a single
`add_song_to_mood_chain` at the service-accepted position 2 leaves the one
member at position 2, so the positions are not {0}. -/
theorem positions_counterexample_add_out_of_range :
    ¬ positionsContiguous (runOps [1] (create_mood_chain [1] []) [.add 1 (some 2)]) := by
  intro h
  have h2 : (↑([2] : List ℕ) : Multiset ℕ) = Multiset.range 1 := h
  rw [Multiset.range_succ] at h2
  have h3 : (2 : ℕ) ∈ (Multiset.range 0).cons 0 := h2 ▸ (by
    show (2 : ℕ) ∈ (↑([2] : List ℕ) : Multiset ℕ)
    exact Multiset.mem_coe.mpr (List.mem_singleton_self 2))
  simp [Multiset.mem_cons, Multiset.range_zero] at h3

/-- Claim C3, amended: for every chain created with a duplicate-free seed of
existing songs, after any sequence of membership mutations in which every
requested add position is at most the current member count and every reorder
sequence is duplicate-free, the positions of the N current members are exactly
the contiguous integers {0, ..., N-1}; an out-of-range requested position (the
service accepts any position at least 0) or a reorder list with duplicates (the
service compares id sets, so duplicates pass its guard) can break contiguity. -/
theorem positions_contiguous_after_good_ops (lib seed : List Nat) (ops : List ChainOp)
    (hseed : seed.Nodup) (hlib : ∀ s ∈ seed, s ∈ lib)
    (hops : goodOps lib (create_mood_chain lib seed) ops = true) :
    positionsContiguous (runOps lib (create_mood_chain lib seed) ops) := by
  obtain ⟨hf, hsnd⟩ := seedRows_all_found lib seed 0 hlib
  have hlen : (seedRows lib 0 seed).length = seed.length := by
    rw [← List.length_map (seedRows lib 0 seed) Prod.fst, hf]
  have h1 : positionsContiguous (create_mood_chain lib seed) := by
    show (↑((seedRows lib 0 seed).map Prod.snd) : Multiset ℕ) =
      Multiset.range (seedRows lib 0 seed).length
    rw [hsnd, hlen, ← List.range_eq_range']
    rfl
  have h2 : membersNodup (create_mood_chain lib seed) := by
    show ((seedRows lib 0 seed).map Prod.fst).Nodup
    rw [hf]
    exact hseed
  exact (runOps_preserves lib ops _ h1 h2 hops).1

/-- Closed witness for `positions_contiguous_after_good_ops`: seed songs 1, 2,
then add 3 at position 1, remove 1, and reorder to [3, 2]. -/
theorem positions_contiguous_after_good_ops_witness :
    positionsContiguous (runOps [1, 2, 3] (create_mood_chain [1, 2, 3] [1, 2])
      [.add 3 (some 1), .remove 1, .reorder [3, 2]]) :=
  positions_contiguous_after_good_ops [1, 2, 3] [1, 2]
    [.add 3 (some 1), .remove 1, .reorder [3, 2]]
    (by decide) (by decide) (by decide)

/-- Database view used by the suggestion engine: chains keyed by (chain id,
owner id), plus the song table. -/
structure Db where
  chains : List (Nat × Nat × Chain)
  songs : List Song

/-- Chain lookup scoped by owner (`get_mood_chain_with_songs`). -/
def getChain (db : Db) (moodChainId ownerId : Nat) : Option Chain :=
  (db.chains.find? fun e => e.1 == moodChainId && e.2.1 == ownerId).map fun e => e.2.2

/-- Owned-song lookup (`_get_song`): the id must exist and belong to the
caller. -/
def getSongOwned (db : Db) (songId ownerId : Nat) : Option Song :=
  db.songs.find? fun sg => sg.id == songId && sg.ownerId == ownerId

/-- Unscoped song lookup standing for the `mcs.song` ORM relationship. -/
def getSongById (db : Db) (songId : Nat) : Option Song :=
  db.songs.find? fun sg => sg.id == songId

/-- Fallback for a dangling song foreign key; never reached on data satisfying
referential integrity. -/
def defaultSong : Song := ⟨0, 0, "", none, none, none, none, none, none, 0, none, 0⟩

/-- One entry of the suggestion list (the `SongSuggestion` TypedDict). -/
structure Suggestion where
  songId : Nat
  title : String
  artist : Option String
  album : Option String
  durationSeconds : Nat
  coverArtPath : Option String
  weight : ℚ
  reason : String
  deriving Repr, DecidableEq

/-- Weight and reason of one candidate (mood_chain.py lines 710-750): a learned
edge from the current song wins; otherwise the chain's transition style
decides; `rand` is the injected value of `random.random()` for this
candidate. -/
def suggestionWeight (c : Chain) (currentSong song : Song) (songId : Nat)
    (transitionsFrom : List Transition) (rand : ℚ) : ℚ × String :=
  match transitionsFrom.find? fun e => e.toSong == songId with
  | some e => (e.weight, "high transition weight")
  | none =>
    match c.style with
    | .smooth =>
      match song.energy, song.valence, currentSong.energy, currentSong.valence with
      | some se, some sv, some ce, some cv =>
        (max 0 (1 - (|se - ce| + |sv - cv|) / 2), "similar energy/valence")
      | _, _, _, _ => (1/2, "default suggestion")
    | .energyFlow =>
      match song.energy, currentSong.energy with
      | some se, some ce =>
        if ce ≤ se then (7/10 + (se - ce) * (3/10), "increasing energy")
        else (3/10, "lower energy")
      | _, _ => (1/2, "default suggestion")
    | .genreMatch =>
      if strTruthy song.genre && strTruthy currentSong.genre then
        if song.genre.getD "" == currentSong.genre.getD "" then (9/10, "same genre")
        else (3/10, "different genre")
      else (1/2, "default suggestion")
    | .random => (rand, "random selection")

/-- Suggestion-building loop of `get_next_song_suggestions` (lines 702-763):
walk the members in position order, skip the current song, score each
candidate.  The counter indexes the injected random stream. -/
def buildSuggestions (db : Db) (c : Chain) (currentSong : Song) (currentSongId : Nat)
    (transitionsFrom : List Transition) (rand : Nat → ℚ) :
    Nat → List (Nat × Nat) → List Suggestion
  | _, [] => []
  | i, r :: rest =>
    if r.1 == currentSongId then
      buildSuggestions db c currentSong currentSongId transitionsFrom rand i rest
    else
      let song := (getSongById db r.1).getD defaultSong
      let wr := suggestionWeight c currentSong song r.1 transitionsFrom (rand i)
      ⟨song.id, song.title, song.artist, song.album, song.durationSeconds,
        song.coverArtPath, wr.1, wr.2⟩ ::
        buildSuggestions db c currentSong currentSongId transitionsFrom rand (i + 1) rest

/-- Embedding of `get_next_song_suggestions` (mood_chain.py lines 661-772):
unknown chain raises MoodChainNotFound; a memberless chain returns the empty
list before the current song is looked up; an unknown or foreign current song
then raises SongNotFound; otherwise candidates are scored, sorted by weight
descending, and `exclude_recent` merely truncates the result. -/
def get_next_song_suggestions (db : Db) (moodChainId currentSongId ownerId : Nat)
    (excludeRecent : Nat) (rand : Nat → ℚ) : Except ChainError (List Suggestion) :=
  match getChain db moodChainId ownerId with
  | none => .error .moodChainNotFound
  | some c =>
    let songIdsInChain := (c.rows.mergeSort fun a b => decide (a.2 ≤ b.2)).map Prod.fst
    if songIdsInChain.isEmpty then .ok []
    else
      match getSongOwned db currentSongId ownerId with
      | none => .error .songNotFound
      | some currentSong =>
        let transitionsFrom := c.transitions.filter fun e => e.fromSong == currentSongId
        let raw := buildSuggestions db c currentSong currentSongId transitionsFrom
          rand 0 (c.rows.mergeSort fun a b => decide (a.2 ≤ b.2))
        let sorted := raw.mergeSort fun a b => decide (b.weight ≤ a.weight)
        .ok (if 0 < excludeRecent ∧ excludeRecent < sorted.length then
          sorted.take excludeRecent else sorted)

/-- Database for the C4 counterexample: one memberless chain owned by user 1
and an empty song table. -/
def dbC4 : Db := ⟨[(1, 1, ⟨[], [], .smooth, 0, none⟩)], []⟩

/-- Claim C4, counterexample: on an owned chain with no members and a current
song id the caller does not own, the service returns an empty list instead of
raising SongNotFound: the member-emptiness early return runs before the song
lookup, which here would fail. -/
theorem suggest_next_empty_chain_skips_song_check :
    get_next_song_suggestions dbC4 1 99 1 0 (fun _ => 0) = .ok [] ∧
    getSongOwned dbC4 99 1 = none := by
  constructor
  · simp [get_next_song_suggestions, getChain, dbC4, List.find?, List.mergeSort_nil]
  · rfl

/-- Claim C4, amended: an unknown chain raises MoodChainNotFound; on an owned
chain with at least one member, a current song id that is not an owned song
raises SongNotFound; an owned chain with no members returns the empty list
without consulting the current song id. -/
theorem suggest_next_error_spec (db : Db) (moodChainId currentSongId ownerId k : Nat)
    (rand : Nat → ℚ) (c : Chain) :
    (getChain db moodChainId ownerId = none →
      get_next_song_suggestions db moodChainId currentSongId ownerId k rand =
        .error .moodChainNotFound) ∧
    (getChain db moodChainId ownerId = some c → c.rows = [] →
      get_next_song_suggestions db moodChainId currentSongId ownerId k rand = .ok []) ∧
    (getChain db moodChainId ownerId = some c → c.rows ≠ [] →
      getSongOwned db currentSongId ownerId = none →
      get_next_song_suggestions db moodChainId currentSongId ownerId k rand =
        .error .songNotFound) := by
  refine ⟨?_, ?_, ?_⟩
  · intro h
    simp [get_next_song_suggestions, h]
  · intro h hrows
    simp [get_next_song_suggestions, h, hrows, List.mergeSort_nil]
  · intro h hrows hsong
    have hne : ((c.rows.mergeSort fun a b => decide (a.2 ≤ b.2)).map Prod.fst) ≠ [] := by
      intro he
      apply hrows
      have hl := congrArg List.length he
      rw [List.length_map, List.length_mergeSort] at hl
      exact List.length_eq_zero.mp hl
    have hempty : ((c.rows.mergeSort fun a b => decide (a.2 ≤ b.2)).map
        Prod.fst).isEmpty = false := by
      cases hE : ((c.rows.mergeSort fun a b => decide (a.2 ≤ b.2)).map Prod.fst).isEmpty
      · rfl
      · exact absurd (List.isEmpty_iff.mp hE) hne
    simp [get_next_song_suggestions, h, hsong, hempty]

/-- A one-member chain for the C4 witness. -/
def chainC4w : Chain := ⟨[(5, 0)], [], .smooth, 0, none⟩

/-- Database for the C4 witness: the chain has a member, the song table is
empty, so any current song id is unknown. -/
def dbC4w : Db := ⟨[(1, 1, chainC4w)], []⟩

/-- Closed witness for `suggest_next_error_spec`: a one-member owned chain and
an unknown current song give SongNotFound. -/
theorem suggest_next_error_spec_witness :
    get_next_song_suggestions dbC4w 1 99 1 0 (fun _ => 0) = .error .songNotFound :=
  (suggest_next_error_spec dbC4w 1 99 1 0 (fun _ => 0) chainC4w).2.2 rfl
    (by decide) rfl

/-- Transition-counting walk of `create_from_history` (mood_chain.py lines
596-604): `prev_song_id` is updated only when the current entry's song is
valid, and each adjacent pair of valid songs contributes one counted
transition (the source's redundant re-check of `prev` is kept). -/
def walkPairs (valid : Nat → Bool) : Option Nat → List Nat → List (Nat × Nat)
  | _, [] => []
  | prev, s :: rest =>
    if valid s then
      (match prev with
       | some q => if valid q then [(q, s)] else []
       | none => []) ++ walkPairs valid (some s) rest
    else walkPairs valid prev rest

/-- Valid songs of `create_from_history` (lines 570-580): played at least
`min_plays` times in the window-filtered, chronologically ordered history. -/
def validSong (history : List Nat) (minPlays : Nat) (s : Nat) : Bool :=
  decide (minPlays ≤ history.count s)

/-- The `transition_counts` key occurrences of `create_from_history`. -/
def transitionPairs (history : List Nat) (minPlays : Nat) : List (Nat × Nat) :=
  walkPairs (validSong history minPlays) none history

/-- `from_song_totals[f]` (lines 607-609): total outgoing count of `f`. -/
def fromTotal (pairs : List (Nat × Nat)) (f : Nat) : Nat :=
  pairs.countP fun q => q.1 == f

/-- Normalized weight `count(from→to) / total_outgoing(from)` (lines
611-614). -/
def transitionWeight (pairs : List (Nat × Nat)) (f t : Nat) : ℚ :=
  ((pairs.countP fun q => decide (q = (f, t))) : ℚ) / (fromTotal pairs f : ℚ)

/-- The edges created by `create_from_history` (lines 611-614 and 644-651):
one per distinct counted pair (`dedup` lists the distinct keys; their order is
immaterial here), each with its normalized weight.  The source's
`from_song_totals[from_id] > 0` guard always holds for a counted pair. -/
def historyEdges (history : List Nat) (minPlays : Nat) : List ((Nat × Nat) × ℚ) :=
  (transitionPairs history minPlays).dedup.map fun q =>
    (q, transitionWeight (transitionPairs history minPlays) q.1 q.2)

theorem filter_map_pair (pairs : List (Nat × Nat)) (wf : Nat × Nat → ℚ) (f : Nat) :
    ((pairs.map fun q => (q, wf q)).filter fun e => e.1.1 == f) =
      (pairs.filter fun q => q.1 == f).map fun q => (q, wf q) := by
  induction pairs with
  | nil => rfl
  | cons q rest ih =>
    cases hq : (q.1 == f) with
    | true => simp only [List.map_cons, List.filter, hq, ih]
    | false => simp only [List.map_cons, List.filter, hq, ih]

theorem sum_map_div {α : Type} (l : List α) (g : α → ℚ) (d : ℚ) :
    (l.map fun x => g x / d).sum = (l.map g).sum / d := by
  induction l with
  | nil => simp
  | cons x rest ih => simp [ih, add_div]

theorem sum_map_natCast {α : Type} (l : List α) (g : α → ℕ) :
    (l.map fun x => ((g x : ℕ) : ℚ)).sum = (((l.map g).sum : ℕ) : ℚ) := by
  induction l with
  | nil => simp
  | cons x rest ih => simp [ih]

/-- Claim C9: in every chain synthesized by `create_from_history`, each created
edge's weight is the counted number of (from, to) transitions divided by the
total outgoing count of `from`; hence for every source song with at least one
outgoing transition, the created weights over its destinations sum to exactly
1. -/
theorem create_from_history_weights_sum_one (history : List Nat) (minPlays f : Nat)
    (h : 0 < fromTotal (transitionPairs history minPlays) f) :
    (((historyEdges history minPlays).filter fun e => e.1.1 == f).map
      fun e => e.2).sum = 1 := by
  set pairs := transitionPairs history minPlays with hpairs
  unfold historyEdges
  rw [← hpairs, filter_map_pair, List.map_map]
  have hcomp : ((fun e => e.2) ∘ fun q : Nat × Nat =>
      (q, transitionWeight pairs q.1 q.2)) = fun q : Nat × Nat =>
        transitionWeight pairs q.1 q.2 := rfl
  rw [hcomp]
  have hcount : ∀ q ∈ (pairs.dedup.filter fun q => q.1 == f),
      transitionWeight pairs q.1 q.2 =
        (((@List.count _ instBEqOfDecidableEq q pairs) : ℕ) : ℚ) /
          (((fromTotal pairs f : ℕ)) : ℚ) := by
    intro q hq
    have hqf : q.1 = f := by simpa using (List.mem_filter.mp hq).2
    unfold transitionWeight
    rw [Prod.mk.eta, hqf]
    rfl
  rw [List.map_congr_left hcount, sum_map_div, sum_map_natCast]
  have hkey : ((pairs.dedup.filter fun q => q.1 == f).map fun q =>
      @List.count _ instBEqOfDecidableEq q pairs).sum = pairs.countP fun q => q.1 == f :=
    List.sum_map_count_dedup_filter_eq_countP (fun q => q.1 == f) pairs
  rw [hkey]
  show ((fromTotal pairs f : ℕ) : ℚ) / ((fromTotal pairs f : ℕ) : ℚ) = 1
  rw [div_self]
  exact_mod_cast Nat.pos_iff_ne_zero.mp h

/-- Closed witness for `create_from_history_weights_sum_one`: the alternating
log A, B, A, B, A with min_plays 1 has two outgoing transitions from A, both to
B, so the single edge A → B carries weight 1. -/
theorem create_from_history_weights_sum_one_witness :
    (((historyEdges [1, 2, 1, 2, 1] 1).filter fun e => e.1.1 == 1).map
      fun e => e.2).sum = 1 :=
  create_from_history_weights_sum_one [1, 2, 1, 2, 1] 1 1 (by decide)

/-- Bucket key of the per-artist cap in `get_personal_mix` (recommendation.py
line 466): `song.artist or "Unknown"` — a missing artist, and by Python
truthiness also an empty-string artist, falls into the shared "Unknown"
bucket. -/
def mixBucket (sg : Song) : String :=
  match sg.artist with
  | none => "Unknown"
  | some a => if a = "" then "Unknown" else a

/-- Loop state of the greedy selection of `get_personal_mix`: the selected
songs, the `artist_counts` dict, and the accumulated duration. -/
structure MixState where
  selected : List Song
  counts : String → Nat
  duration : Nat

/-- One iteration of the selection loop of `get_personal_mix` (recommendation.py
lines 461-472).  The source breaks out of the loop once the duration target is
reached; the accumulated duration never decreases, so re-checking the break
condition on every element is equivalent. -/
def mixStep (target : Nat) (st : MixState) (sg : Song) : MixState :=
  if target ≤ st.duration then st
  else if 3 ≤ st.counts (mixBucket sg) then st
  else
    ⟨st.selected ++ [sg],
     fun a => if a = mixBucket sg then st.counts (mixBucket sg) + 1 else st.counts a,
     st.duration + sg.durationSeconds⟩

/-- Selection loop of `get_personal_mix` (recommendation.py lines 455-474),
applied to the already mood-filtered and ordered candidate list. -/
def personal_mix_select (allSongs : List Song) (target : Nat) : List Song :=
  (allSongs.foldl (mixStep target) ⟨[], fun _ => 0, 0⟩).selected

/-- Loop invariant: `artist_counts` counts the selected songs per bucket and
never exceeds 3. -/
def mixInv (st : MixState) : Prop :=
  ∀ k, (st.selected.filter fun sg => decide (mixBucket sg = k)).length = st.counts k ∧
    st.counts k ≤ 3

theorem mixStep_inv (target : Nat) (st : MixState) (sg : Song) (h : mixInv st) :
    mixInv (mixStep target st sg) := by
  unfold mixStep
  split_ifs with h1 h2
  · exact h
  · exact h
  · intro k
    have hlt : st.counts (mixBucket sg) < 3 := Nat.lt_of_not_le h2
    constructor
    · show ((st.selected ++ [sg]).filter fun x => decide (mixBucket x = k)).length = _
      rw [List.filter_append]
      by_cases hk : k = mixBucket sg
      · subst hk
        rw [List.length_append, (h _).1]
        simp [List.filter]
      · rw [List.length_append, (h k).1]
        have hno : (([sg].filter fun x => decide (mixBucket x = k))).length = 0 := by
          have hd : decide (mixBucket sg = k) = false :=
            decide_eq_false fun he => hk he.symm
          simp [List.filter, hd]
        rw [hno]
        simp [fun he : k = mixBucket sg => hk he]
    · show (if k = mixBucket sg then st.counts (mixBucket sg) + 1 else st.counts k) ≤ 3
      by_cases hk : k = mixBucket sg
      · rw [if_pos hk]
        omega
      · rw [if_neg hk]
        exact (h k).2

theorem foldl_mix_inv (target : Nat) (l : List Song) :
    ∀ st, mixInv st → mixInv (l.foldl (mixStep target) st) := by
  induction l with
  | nil =>
    intro st h
    exact h
  | cons sg rest ih =>
    intro st h
    exact ih _ (mixStep_inv target st sg h)

/-- Claim C10: every result of the `get_personal_mix` selection contains at
most 3 songs with any one artist string, and all artist-less songs share the
one "Unknown" bucket, so at most 3 artist-less songs ever appear. -/
theorem personal_mix_artist_cap (allSongs : List Song) (target : Nat) (a : String) :
    ((personal_mix_select allSongs target).filter fun sg =>
      decide (sg.artist = some a)).length ≤ 3 ∧
    ((personal_mix_select allSongs target).filter fun sg =>
      decide (sg.artist = none)).length ≤ 3 := by
  have hinv : mixInv (allSongs.foldl (mixStep target) ⟨[], fun _ => 0, 0⟩) := by
    refine foldl_mix_inv target allSongs _ fun k => ⟨rfl, by norm_num⟩
  constructor
  · have hsub : ∀ sg ∈ personal_mix_select allSongs target,
        decide (sg.artist = some a) = true →
          decide (mixBucket sg = (if a = "" then "Unknown" else a)) = true := by
      intro sg _ hsg
      rw [decide_eq_true_eq] at hsg ⊢
      simp [mixBucket, hsg]
    calc ((personal_mix_select allSongs target).filter fun sg =>
          decide (sg.artist = some a)).length
        = List.countP (fun sg => decide (sg.artist = some a))
            (personal_mix_select allSongs target) :=
          (List.countP_eq_length_filter _ _).symm
      _ ≤ List.countP (fun sg => decide (mixBucket sg = (if a = "" then "Unknown" else a)))
            (personal_mix_select allSongs target) := List.countP_mono_left hsub
      _ = ((personal_mix_select allSongs target).filter fun sg =>
            decide (mixBucket sg = (if a = "" then "Unknown" else a))).length :=
          List.countP_eq_length_filter _ _
      _ = (allSongs.foldl (mixStep target) ⟨[], fun _ => 0, 0⟩).counts
            (if a = "" then "Unknown" else a) :=
          (hinv (if a = "" then "Unknown" else a)).1
      _ ≤ 3 := (hinv (if a = "" then "Unknown" else a)).2
  · have hsub : ∀ sg ∈ personal_mix_select allSongs target,
        decide (sg.artist = none) = true → decide (mixBucket sg = "Unknown") = true := by
      intro sg _ hsg
      rw [decide_eq_true_eq] at hsg ⊢
      simp [mixBucket, hsg]
    calc ((personal_mix_select allSongs target).filter fun sg =>
          decide (sg.artist = none)).length
        = List.countP (fun sg => decide (sg.artist = none))
            (personal_mix_select allSongs target) :=
          (List.countP_eq_length_filter _ _).symm
      _ ≤ List.countP (fun sg => decide (mixBucket sg = "Unknown"))
            (personal_mix_select allSongs target) := List.countP_mono_left hsub
      _ = ((personal_mix_select allSongs target).filter fun sg =>
            decide (mixBucket sg = "Unknown")).length :=
          List.countP_eq_length_filter _ _
      _ = (allSongs.foldl (mixStep target) ⟨[], fun _ => 0, 0⟩).counts "Unknown" :=
          (hinv "Unknown").1
      _ ≤ 3 := (hinv "Unknown").2

end MusicLib
